import Mathlib

/-!
# Verification of the composition and synthesis core of the sound crate

Shallow embedding of the pitch model (`src/note.rs`, `src/music/key.rs`),
the waveform generators (`src/audio/wave.rs`, `src/audio/square.rs`,
`src/audio/square_wave.rs`), the notation parser (`src/music/util.rs`) and
the melody scheduler (`src/music/melody.rs`), together with theorems about
the specified behaviour.

Modelling conventions:
* Rust `i32`/`u8`/`u32`/`usize` become `ℤ`/`ℕ` with explicit truncating
  casts (`% 256` for `as u8`) where overflow matters in a claim.
* Rust `f32` arithmetic on phases, frequencies and durations is embedded in
  `ℚ`; only the sine sample needs `ℝ` (`Real.sin`).  Note that for
  `frequency = 0` the source computes `phase_step = 1.0 / (rate / 0.0)
  = 1.0 / inf = 0.0`, and the `ℚ` embedding (where division by zero is 0)
  yields the same value `0`.
* Rust `%` on integers is truncating (`Int.tmod`), `/` is truncating
  (`Int.tdiv`); Rust `f32::rem_euclid(1.0)` is `Int.fract`;
  `x as usize` on a non-negative float is `(⌊x⌋).toNat`.
* `std::time::Duration` is kept as an exact number: milliseconds (`ℕ`)
  where the source works in `from_millis`/`as_millis`, seconds (`ℚ`) where
  it calls `as_secs_f32`.
-/

namespace Sound

/-- Pitch classes of `Note` (src/note.rs): the 12 chromatic semitones plus
the distinguished `Rest`. -/
inductive Note where
  | C | Cs | D | Ds | E | F | Fs | G | Gs | A | As | B | Rest
deriving DecidableEq

/-- The `Note` enum discriminants: canonical base frequency in Hz at
octave 4 (`Rest = 0`). -/
def Note.baseFreq : Note → ℕ
  | .C => 261 | .Cs => 277 | .D => 294 | .Ds => 311 | .E => 330 | .F => 349
  | .Fs => 370 | .G => 392 | .Gs => 415 | .A => 440 | .As => 466 | .B => 494
  | .Rest => 0

/-- `Note::frequency(octave)`: `base_freq * 2^(octave - 4)`, with the
zero-base (`Rest`) early return. -/
def Note.frequency (n : Note) (octave : ℕ) : ℚ :=
  if n.baseFreq = 0 then 0
  else (n.baseFreq : ℚ) * (2 : ℚ) ^ ((octave : ℤ) - 4)

/-- `Note::to_semitone`: semitone index 0–11, `Rest ↦ -1`. -/
def Note.to_semitone : Note → ℤ
  | .C => 0 | .Cs => 1 | .D => 2 | .Ds => 3 | .E => 4 | .F => 5
  | .Fs => 6 | .G => 7 | .Gs => 8 | .A => 9 | .As => 10 | .B => 11
  | .Rest => -1

/-- `Note::from_semitone`: match on `semitone % 12` (Rust truncating
remainder) with the `_ => Note::C` fallback arm. -/
def Note.from_semitone (semitone : ℤ) : Note :=
  let m := Int.tmod semitone 12
  if m = 0 then .C else if m = 1 then .Cs else if m = 2 then .D
  else if m = 3 then .Ds else if m = 4 then .E else if m = 5 then .F
  else if m = 6 then .Fs else if m = 7 then .G else if m = 8 then .Gs
  else if m = 9 then .A else if m = 10 then .As else if m = 11 then .B
  else .C

/-- `Key` (src/music/key.rs): a root note and an octave (`u8` in the
source; the theorems below carry the bound `octave ≤ 255` explicitly). -/
structure Key where
  root : Note
  octave : ℕ

/-- `Key::note_at_interval` (src/music/key.rs:19-44), including the Rust
`as u8` truncating cast on the final octave (`% 256`). -/
def Key.note_at_interval (k : Key) (interval : ℤ) : Note × ℕ :=
  let root_semitone := k.root.to_semitone
  let target_semitone := root_semitone + interval
  let octave_change :=
    if 0 ≤ target_semitone then Int.tdiv target_semitone 12
    else Int.tdiv (target_semitone - 11) 12
  let final_octave := ((max ((k.octave : ℤ) + octave_change) 0) % 256).toNat
  let note_semitone :=
    if 0 ≤ target_semitone then Int.tmod target_semitone 12
    else Int.tmod (Int.tmod target_semitone 12 + 12) 12
  (Note.from_semitone note_semitone, final_octave)

/-- `MusicNote` (src/note.rs): resolved pitch, octave, duration (ms). -/
structure MusicNote where
  note : Note
  octave : ℕ
  durationMs : ℕ
deriving DecidableEq

/-- `MusicNote::from_key_interval`. -/
def MusicNote.from_key_interval (k : Key) (interval : ℤ) (durationMs : ℕ) :
    MusicNote :=
  let r := k.note_at_interval interval
  ⟨r.1, r.2, durationMs⟩

/-- `MusicNote::frequency`. -/
def MusicNote.frequency (m : MusicNote) : ℚ := m.note.frequency m.octave

/-! ## Arithmetic helper lemmas for `note_at_interval` -/

theorem tmod_neg_dividend (k : ℤ) :
    Int.tmod (-k) 12 = -(Int.tmod k 12) := by
  rw [Int.tmod_def, Int.tmod_def, Int.neg_tdiv]; ring

theorem octave_change_eq_floor (t : ℤ) :
    (if 0 ≤ t then Int.tdiv t 12 else Int.tdiv (t - 11) 12) = t / 12 := by
  by_cases h : 0 ≤ t
  · simp only [h, if_true]
    exact Int.tdiv_eq_ediv h (by norm_num)
  · simp only [h, if_false]
    have h1 : t - 11 = -(11 - t) := by ring
    have h2 : (0 : ℤ) ≤ 11 - t := by omega
    rw [h1, Int.neg_tdiv, Int.tdiv_eq_ediv h2 (by norm_num)]
    omega

theorem note_semitone_eq_emod (t : ℤ) :
    (if 0 ≤ t then Int.tmod t 12
     else Int.tmod (Int.tmod t 12 + 12) 12) = t % 12 := by
  by_cases h : 0 ≤ t
  · simp only [h, if_true]
    exact Int.tmod_eq_emod h (by norm_num)
  · simp only [h, if_false]
    have h1 : Int.tmod t 12 = -(Int.tmod (-t) 12) := by
      rw [← tmod_neg_dividend]; ring_nf
    have h2 : Int.tmod (-t) 12 = (-t) % 12 :=
      Int.tmod_eq_emod (by omega) (by norm_num)
    have h3 : 0 ≤ (-t) % 12 := Int.emod_nonneg _ (by norm_num)
    have h4 : (-t) % 12 < 12 := Int.emod_lt_of_pos _ (by norm_num)
    rw [h1, h2]
    have h5 : 0 ≤ -((-t) % 12) + 12 := by omega
    rw [Int.tmod_eq_emod h5 (by norm_num)]
    omega

theorem from_semitone_to_semitone (m : ℤ) (h0 : 0 ≤ m) (h1 : m < 12) :
    (Note.from_semitone m).to_semitone = m := by
  interval_cases m <;> rfl

/-! ## C1: `note_at_interval` floor division, modulo and octave clamp -/

/-- C1 (amended): for a non-Rest root, octave `o ≤ 255` and interval `i`
with `t = to_semitone(root) + i`, `note_at_interval` returns the pitch
class of semitone index `((t % 12) + 12) % 12` and the octave
`max (o + ⌊t / 12⌋) 0`, provided that value fits in a `u8`
(`o + ⌊t / 12⌋ ≤ 255`); negative intervals use floor division and an
octave below zero clamps to 0. -/
theorem note_at_interval_spec (root : Note) (o : ℕ) (i : ℤ)
    (hroot : root ≠ Note.Rest) (ho : o ≤ 255)
    (hfit : (o : ℤ) + (root.to_semitone + i) / 12 ≤ 255) :
    ((Key.mk root o).note_at_interval i).1.to_semitone
        = ((root.to_semitone + i) % 12 + 12) % 12 ∧
    (((Key.mk root o).note_at_interval i).2 : ℤ)
        = max ((o : ℤ) + (root.to_semitone + i) / 12) 0 := by
  have hmod0 : 0 ≤ (root.to_semitone + i) % 12 :=
    Int.emod_nonneg _ (by norm_num)
  have hmod1 : (root.to_semitone + i) % 12 < 12 :=
    Int.emod_lt_of_pos _ (by norm_num)
  have hsem := note_semitone_eq_emod (root.to_semitone + i)
  have hoct := octave_change_eq_floor (root.to_semitone + i)
  have hge : 0 ≤ max ((o : ℤ) + (root.to_semitone + i) / 12) 0 :=
    le_max_right _ _
  have hlt : max ((o : ℤ) + (root.to_semitone + i) / 12) 0 < 256 := by omega
  constructor
  · simp only [Key.note_at_interval]
    rw [hsem, from_semitone_to_semitone _ hmod0 hmod1]
    omega
  · simp only [Key.note_at_interval]
    rw [hoct, Int.emod_eq_of_lt hge hlt, Int.toNat_of_nonneg hge]

theorem note_at_interval_spec_witness :
    ((Key.mk Note.C 4).note_at_interval (-1)).1.to_semitone
        = ((Note.C.to_semitone + (-1)) % 12 + 12) % 12 ∧
    (((Key.mk Note.C 4).note_at_interval (-1)).2 : ℤ)
        = max ((4 : ℤ) + (Note.C.to_semitone + (-1)) / 12) 0 :=
  note_at_interval_spec Note.C 4 (-1) (by decide) (by norm_num) (by decide)

/-- C1 counterexample: at `Key(C, 255)` with interval `12` the code wraps
the octave through the `as u8` cast and returns octave 0, while the claim
demands `max(0, 255 + ⌊12/12⌋) = 256`. -/
theorem note_at_interval_u8_wrap_counterexample :
    ((Key.mk Note.C 255).note_at_interval 12).2 = 0 ∧
    max ((255 : ℤ) + (Note.C.to_semitone + 12) / 12) 0 ≠ (0 : ℤ) := by
  decide

/-! ## C2: `from_semitone` totality and negative inputs -/

/-- C2 (amended): `from_semitone` is total and never fails; for `n ≥ 0` it
returns the pitch class of semitone index `n % 12`, but for negative `n`
not divisible by 12 the Rust truncating `%` misses every match arm and the
function returns the fallback `Note::C` (so `from_semitone(-1)` is C, not
B). -/
theorem from_semitone_spec (n : ℤ) :
    (0 ≤ n → (Note.from_semitone n).to_semitone = n % 12) ∧
    (n < 0 → Note.from_semitone n = Note.C) := by
  constructor
  · intro h
    have h12 : Int.tmod n 12 = n % 12 := Int.tmod_eq_emod h (by norm_num)
    have h0 : 0 ≤ n % 12 := Int.emod_nonneg _ (by norm_num)
    have h1 : n % 12 < 12 := Int.emod_lt_of_pos _ (by norm_num)
    have : Note.from_semitone n = Note.from_semitone (n % 12) := by
      unfold Note.from_semitone
      rw [h12, Int.tmod_eq_emod h0 (by norm_num), Int.emod_emod_of_dvd]
      exact dvd_refl 12
    rw [this, from_semitone_to_semitone _ h0 h1]
  · intro h
    have h1 : Int.tmod n 12 = -(Int.tmod (-n) 12) := by
      rw [← tmod_neg_dividend]; ring_nf
    have h2 : Int.tmod (-n) 12 = (-n) % 12 :=
      Int.tmod_eq_emod (by omega) (by norm_num)
    have h3 : 0 ≤ (-n) % 12 := Int.emod_nonneg _ (by norm_num)
    have h4 : (-n) % 12 < 12 := Int.emod_lt_of_pos _ (by norm_num)
    unfold Note.from_semitone
    rw [h1, h2]
    set r := (-n) % 12 with hr
    interval_cases r <;> rfl

theorem from_semitone_spec_witness :
    ((Note.from_semitone 14).to_semitone = (14 : ℤ) % 12) ∧
    (Note.from_semitone (-1) = Note.C) :=
  ⟨(from_semitone_spec 14).1 (by norm_num),
   (from_semitone_spec (-1)).2 (by norm_num)⟩

/-- C2 counterexample: `from_semitone(-1)` is the fallback `Note::C`, not
the pitch class B of semitone index `((-1 % 12) + 12) % 12 = 11`. -/
theorem from_semitone_neg_one_counterexample :
    Note.from_semitone (-1) = Note.C ∧
    (Note.from_semitone (-1)).to_semitone ≠ ((-1 : ℤ) % 12 + 12) % 12 := by
  decide

/-! ## Waveform generators -/

/-- `WaveType` (src/audio/wave.rs). -/
inductive WaveType where
  | Sine | Square | Triangle | Pulse | Sawtooth
deriving DecidableEq

/-- `get_wave_type` (src/audio/wave.rs:15-24): name → shape, defaulting to
sine. -/
def get_wave_type (s : String) : WaveType :=
  if s.toLower = "sine" then .Sine
  else if s.toLower = "square" then .Square
  else if s.toLower = "triangle" then .Triangle
  else if s.toLower = "pulse" then .Pulse
  else if s.toLower = "sawtooth" then .Sawtooth
  else .Sine

/-- Rust `f32` `%` by `1.0` (truncating remainder; for the non-negative
phases that actually occur it is the fractional part). -/
def rem1 (x : ℚ) : ℚ := if 0 ≤ x then Int.fract x else -(Int.fract (-x))

/-- `Wave` (src/audio/wave.rs:27-34). -/
structure Wave where
  wave_type : WaveType
  sample_rate : ℕ
  phase : ℚ
  phase_step : ℚ
  samples_played : ℕ
  limit : Option ℕ

/-- `Wave::finite`: `period = rate / freq`, `phase_step = 1 / period`
(for `freq = 0` the source gets `1.0 / inf = 0.0` and the `ℚ` embedding
`1 / 0 = 0`, the same value), and the `as usize` truncated sample budget. -/
def Wave.finite (wave_type : WaveType) (frequency : ℚ) (sample_rate : ℕ)
    (duration : ℚ) : Wave :=
  let period := (sample_rate : ℚ) / frequency
  let phase_step := 1 / period
  let total_samples := (⌊duration * (sample_rate : ℚ)⌋).toNat
  ⟨wave_type, sample_rate, 0, phase_step, 0, some total_samples⟩

/-- `Wave::infinite`. -/
def Wave.infinite (wave_type : WaveType) (frequency : ℚ) (sample_rate : ℕ) :
    Wave :=
  let period := (sample_rate : ℚ) / frequency
  let phase_step := 1 / period
  ⟨wave_type, sample_rate, 0, phase_step, 0, none⟩

/-- `Wave::from_note`. -/
def Wave.from_note (wave_type : WaveType) (note : MusicNote)
    (sample_rate : ℕ) : Wave :=
  Wave.finite wave_type note.frequency sample_rate
    ((note.durationMs : ℚ) / 1000)

/-- `Wave::sine`: `sin(TAU * phase)`. -/
noncomputable def Wave.sine (s : Wave) : ℝ :=
  Real.sin (2 * Real.pi * (s.phase : ℝ))

/-- `Wave::triangle`: `4 * |phase - floor(phase + 0.5)| - 1`. -/
def Wave.triangle (s : Wave) : ℚ :=
  4 * |s.phase - (⌊s.phase + 1/2⌋ : ℚ)| - 1

/-- `Wave::square`: `phase % 1.0 < 0.5 → 1.0 else -1.0`. -/
def Wave.square (s : Wave) : ℚ :=
  if rem1 s.phase < 1/2 then 1 else -1

/-- `Wave::pulse`: 25% duty cycle. -/
def Wave.pulse (s : Wave) : ℚ :=
  if rem1 s.phase < 1/4 then 1 else -1

/-- `Wave::sawtooth`: `2 * (phase - floor(phase + 0.5))`. -/
def Wave.sawtooth (s : Wave) : ℚ :=
  2 * (s.phase - (⌊s.phase + 1/2⌋ : ℚ))

/-- The shape dispatch in `Wave::next`. -/
noncomputable def Wave.sample (s : Wave) : ℝ :=
  match s.wave_type with
  | .Sine => s.sine
  | .Triangle => (s.triangle : ℝ)
  | .Square => (s.square : ℝ)
  | .Pulse => (s.pulse : ℝ)
  | .Sawtooth => (s.sawtooth : ℝ)

/-- The budget check at the top of `Wave::next`
(`samples_played >= limit`). -/
def Wave.isDone (s : Wave) : Bool :=
  match s.limit with
  | some l => decide (l ≤ s.samples_played)
  | none => false

/-- The emitted value of one `Wave::next` call. -/
noncomputable def Wave.out (s : Wave) : Option ℝ :=
  if s.isDone then none else some s.sample

/-- The state update of one `Wave::next` call: advance the phase by
`phase_step` and wrap with `rem_euclid(1.0)` (`Int.fract`), bump the
counter. -/
def Wave.step (s : Wave) : Wave :=
  if s.isDone then s
  else { s with phase := Int.fract (s.phase + s.phase_step),
                samples_played := s.samples_played + 1 }

/-- `Square` (src/audio/square.rs:8-16). -/
structure Square where
  frequency : ℚ
  sample_rate : ℕ
  phase : ℚ
  phase_step : ℚ
  period : ℚ
  samples_played : ℕ
  limit : Option ℕ

/-- `Square::finite` (src/audio/square.rs:19-32). -/
def Square.finite (frequency : ℚ) (sample_rate : ℕ) (duration : ℚ) :
    Square :=
  let period := (sample_rate : ℚ) / frequency
  let phase_step := 1 / period
  let total_samples := (⌊duration * (sample_rate : ℚ)⌋).toNat
  ⟨frequency, sample_rate, 0, phase_step, period, 0, some total_samples⟩

/-- `Square::infinite`. -/
def Square.infinite (frequency : ℚ) (sample_rate : ℕ) : Square :=
  let period := (sample_rate : ℚ) / frequency
  let phase_step := 1 / period
  ⟨frequency, sample_rate, 0, phase_step, period, 0, none⟩

/-- `Square::from_note` (src/audio/square.rs:48-50). -/
def Square.from_note (note : MusicNote) (sample_rate : ℕ) : Square :=
  Square.finite note.frequency sample_rate ((note.durationMs : ℚ) / 1000)

/-- Budget check of `Square::next`. -/
def Square.isDone (s : Square) : Bool :=
  match s.limit with
  | some l => decide (l ≤ s.samples_played)
  | none => false

/-- Emitted value of one `Square::next` call (no zero-frequency special
case: the sample is `phase % 1.0 < 0.5 → 1.0 else -1.0` always). -/
def Square.out (s : Square) : Option ℚ :=
  if s.isDone then none
  else some (if rem1 s.phase < 1/2 then 1 else -1)

/-- State update of one `Square::next` call (`rem_euclid(1.0)` wrap). -/
def Square.step (s : Square) : Square :=
  if s.isDone then s
  else { s with phase := Int.fract (s.phase + s.phase_step),
                samples_played := s.samples_played + 1 }

/-- `SquareWave` (src/audio/square_wave.rs:8-15). -/
structure SquareWave where
  frequency : ℚ
  sample_rate : ℕ
  phase : ℚ
  durationSecs : ℚ
  samples_played : ℕ
  total_samples : ℕ

/-- `SquareWave::new`. -/
def SquareWave.new (frequency : ℚ) (sample_rate : ℕ) (duration : ℚ) :
    SquareWave :=
  ⟨frequency, sample_rate, 0, duration, 0,
   (⌊duration * (sample_rate : ℚ)⌋).toNat⟩

/-- `SquareWave::from_note`. -/
def SquareWave.from_note (note : MusicNote) (sample_rate : ℕ) : SquareWave :=
  SquareWave.new note.frequency sample_rate ((note.durationMs : ℚ) / 1000)

/-- Emitted value of one `SquareWave::next` call: this generator does
special-case `frequency == 0.0` to silence, and emits `±0.1` otherwise. -/
def SquareWave.out (s : SquareWave) : Option ℚ :=
  if s.total_samples ≤ s.samples_played then none
  else some (if s.frequency = 0 then 0
             else if s.phase < 1/2 then 1/10 else -(1/10))

/-- State update of one `SquareWave::next` call: phase wrap by
conditional subtraction (`if phase >= 1.0 { phase -= 1.0 }`), not a true
modulo. -/
def SquareWave.step (s : SquareWave) : SquareWave :=
  if s.total_samples ≤ s.samples_played then s
  else
    let p := s.phase + s.frequency / (s.sample_rate : ℚ)
    { s with phase := if 1 ≤ p then p - 1 else p,
             samples_played := s.samples_played + 1 }

/-! ## Wave iteration lemmas -/

theorem wave_step_of_done (s : Wave) (h : s.isDone = true) :
    Wave.step s = s := by
  simp [Wave.step, h]

theorem wave_step_played_of_not_done (s : Wave) (h : s.isDone = false) :
    (Wave.step s).samples_played = s.samples_played + 1 := by
  simp [Wave.step, h]

theorem wave_step_limit (s : Wave) : (Wave.step s).limit = s.limit := by
  unfold Wave.step
  split <;> rfl

theorem wave_isDone_of_limit (s : Wave) (l : ℕ) (h : s.limit = some l) :
    s.isDone = decide (l ≤ s.samples_played) := by
  unfold Wave.isDone
  rw [h]

theorem wave_finite_iterate (wt : WaveType) (freq : ℚ) (rate : ℕ) (d : ℚ)
    (n : ℕ) :
    ((Wave.step)^[n] (Wave.finite wt freq rate d)).samples_played
        = min n (⌊d * (rate : ℚ)⌋).toNat ∧
    ((Wave.step)^[n] (Wave.finite wt freq rate d)).limit
        = some (⌊d * (rate : ℚ)⌋).toNat := by
  induction n with
  | zero => simp [Wave.finite]
  | succ n ih =>
    rcases ih with ⟨h1, h2⟩
    rw [Function.iterate_succ_apply']
    by_cases hc : (⌊d * (rate : ℚ)⌋).toNat ≤ n
    · have hd : ((Wave.step)^[n] (Wave.finite wt freq rate d)).isDone
          = true := by
        rw [wave_isDone_of_limit _ _ h2]
        simp only [decide_eq_true_eq]
        omega
      rw [wave_step_of_done _ hd]
      exact ⟨by omega, h2⟩
    · have hd : ((Wave.step)^[n] (Wave.finite wt freq rate d)).isDone
          = false := by
        rw [wave_isDone_of_limit _ _ h2]
        simp only [decide_eq_false_iff_not]
        omega
      refine ⟨?_, ?_⟩
      · rw [wave_step_played_of_not_done _ hd, h1]
        omega
      · rw [wave_step_limit, h2]

theorem wave_out_isSome_iff (wt : WaveType) (freq : ℚ) (rate : ℕ) (d : ℚ)
    (n : ℕ) :
    (Wave.out ((Wave.step)^[n] (Wave.finite wt freq rate d))).isSome = true
      ↔ n < (⌊d * (rate : ℚ)⌋).toNat := by
  obtain ⟨h1, h2⟩ := wave_finite_iterate wt freq rate d n
  unfold Wave.out Wave.isDone
  rw [h2]
  by_cases hc : n < (⌊d * (rate : ℚ)⌋).toNat
  · have : ¬ ((⌊d * (rate : ℚ)⌋).toNat
        ≤ ((Wave.step)^[n] (Wave.finite wt freq rate d)).samples_played) := by
      rw [h1]; omega
    simp [this, hc]
  · have : (⌊d * (rate : ℚ)⌋).toNat
        ≤ ((Wave.step)^[n] (Wave.finite wt freq rate d)).samples_played := by
      rw [h1]; omega
    simp [this, hc]

/-! ## C4: finite sample budget -/

/-- C4 (amended): a finite `Wave` yields exactly
`⌊duration * sample_rate⌋` samples — the Rust `as usize` cast truncates,
it does not round — and then ends (the n-th call to `next` emits a sample
iff `n < ⌊d·r⌋`), and it yields no sample at all when the duration is
0. -/
theorem finite_wave_sample_count (wt : WaveType) (freq : ℚ) (rate : ℕ)
    (d : ℚ) :
    (∀ n, (Wave.out ((Wave.step)^[n] (Wave.finite wt freq rate d))).isSome
        = true ↔ n < (⌊d * (rate : ℚ)⌋).toNat) ∧
    Wave.out (Wave.finite wt freq rate 0) = none := by
  refine ⟨fun n => wave_out_isSome_iff wt freq rate d n, ?_⟩
  have h := wave_out_isSome_iff wt freq rate 0 0
  simp only [Function.iterate_zero_apply] at h
  rw [← Option.not_isSome_iff_eq_none]
  simp only [h]
  norm_num

/-- C4 counterexample: with duration 0.5 s at sample rate 21 the generator
is exhausted after 10 samples (call number 10, counted from 0, yields
nothing), while the claimed budget `round(0.5 * 21)` is 11. -/
theorem finite_wave_count_truncates_counterexample :
    (Wave.out ((Wave.step)^[10]
        (Wave.finite WaveType.Sine 440 21 (1/2)))).isSome = false ∧
    round ((1/2 : ℚ) * (21 : ℕ)) = (11 : ℤ) := by
  constructor
  · have h := wave_out_isSome_iff WaveType.Sine 440 21 (1/2) 10
    have hnot : ¬ (10 < (⌊(1/2 : ℚ) * ((21 : ℕ) : ℚ)⌋).toNat) := by
      norm_num
    simpa using (not_congr h).mpr hnot
  · norm_num [round_eq]

/-! ## C5: phase invariant -/

theorem wave_step_phase_unit (s : Wave)
    (h : 0 ≤ s.phase ∧ s.phase < 1) :
    0 ≤ (Wave.step s).phase ∧ (Wave.step s).phase < 1 := by
  unfold Wave.step
  by_cases hd : s.isDone = true
  · simpa [hd] using h
  · simp only [Bool.not_eq_true] at hd
    simp only [hd, Bool.false_eq_true, if_false]
    exact ⟨Int.fract_nonneg _, Int.fract_lt_one _⟩

theorem square_step_phase_unit (s : Square)
    (h : 0 ≤ s.phase ∧ s.phase < 1) :
    0 ≤ (Square.step s).phase ∧ (Square.step s).phase < 1 := by
  unfold Square.step
  by_cases hd : s.isDone = true
  · simpa [hd] using h
  · simp only [Bool.not_eq_true] at hd
    simp only [hd, Bool.false_eq_true, if_false]
    exact ⟨Int.fract_nonneg _, Int.fract_lt_one _⟩

/-- C5 (amended): `Wave` and `Square` wrap the phase with a true modulo
(`rem_euclid(1.0)`), so for every positive frequency — including
`phase_step > 1`, i.e. frequency above the sample rate — the stored phase
lies in `[0, 1)` after every number of `next` calls, for both finite and
infinite construction.  `SquareWave` (src/audio/square_wave.rs) wraps by
conditional subtraction instead and violates the invariant (see the
counterexample), so the claim does not hold for every generator. -/
theorem wave_phase_in_unit (wt : WaveType) (freq : ℚ) (rate : ℕ) (d : ℚ)
    (hfreq : 0 < freq) (n : ℕ) :
    (0 ≤ ((Wave.step)^[n] (Wave.finite wt freq rate d)).phase ∧
        ((Wave.step)^[n] (Wave.finite wt freq rate d)).phase < 1) ∧
    (0 ≤ ((Wave.step)^[n] (Wave.infinite wt freq rate)).phase ∧
        ((Wave.step)^[n] (Wave.infinite wt freq rate)).phase < 1) ∧
    (0 ≤ ((Square.step)^[n] (Square.finite freq rate d)).phase ∧
        ((Square.step)^[n] (Square.finite freq rate d)).phase < 1) ∧
    (0 ≤ ((Square.step)^[n] (Square.infinite freq rate)).phase ∧
        ((Square.step)^[n] (Square.infinite freq rate)).phase < 1) := by
  induction n with
  | zero =>
    simp only [Function.iterate_zero_apply]
    refine ⟨⟨?_, ?_⟩, ⟨?_, ?_⟩, ⟨?_, ?_⟩, ⟨?_, ?_⟩⟩ <;>
      norm_num [Wave.finite, Wave.infinite, Square.finite, Square.infinite]
  | succ n ih =>
    rw [Function.iterate_succ_apply', Function.iterate_succ_apply',
      Function.iterate_succ_apply', Function.iterate_succ_apply']
    exact ⟨wave_step_phase_unit _ ih.1, wave_step_phase_unit _ ih.2.1,
      square_step_phase_unit _ ih.2.2.1, square_step_phase_unit _ ih.2.2.2⟩

theorem wave_phase_in_unit_witness :
    (0 ≤ ((Wave.step)^[3] (Wave.finite WaveType.Sine 3 2 1)).phase ∧
        ((Wave.step)^[3] (Wave.finite WaveType.Sine 3 2 1)).phase < 1) ∧
    (0 ≤ ((Wave.step)^[3] (Wave.infinite WaveType.Sine 3 2)).phase ∧
        ((Wave.step)^[3] (Wave.infinite WaveType.Sine 3 2)).phase < 1) ∧
    (0 ≤ ((Square.step)^[3] (Square.finite 3 2 1)).phase ∧
        ((Square.step)^[3] (Square.finite 3 2 1)).phase < 1) ∧
    (0 ≤ ((Square.step)^[3] (Square.infinite 3 2)).phase ∧
        ((Square.step)^[3] (Square.infinite 3 2)).phase < 1) :=
  wave_phase_in_unit WaveType.Sine 3 2 1 (by norm_num) 3

/-- C5 counterexample: `SquareWave` with frequency 2 at sample rate 1
(a positive frequency with `phase_step = 2 > 1`) stores phase 1 ∉ [0,1)
after a single `next` call. -/
theorem square_wave_phase_escapes_counterexample :
    (0 : ℚ) < 2 ∧
    ¬ ((SquareWave.step (SquareWave.new 2 1 1)).phase < 1) := by
  constructor
  · norm_num
  · norm_num [SquareWave.step, SquareWave.new]

/-! ## C8: sample boundedness -/

theorem wave_sample_bounds (s : Wave) :
    -1 ≤ Wave.sample s ∧ Wave.sample s ≤ 1 := by
  obtain ⟨wt, rate, phase, step, played, lim⟩ := s
  have h1 : ((⌊phase + 1/2⌋ : ℚ)) ≤ phase + 1/2 := Int.floor_le _
  have h2 : phase + 1/2 - 1 < ((⌊phase + 1/2⌋ : ℚ)) := by
    have := Int.lt_floor_add_one (phase + 1/2)
    linarith
  cases wt
  case Sine =>
    exact ⟨Real.neg_one_le_sin _, Real.sin_le_one _⟩
  case Square =>
    show -1 ≤ ((Wave.square _ : ℚ) : ℝ) ∧ ((Wave.square _ : ℚ) : ℝ) ≤ 1
    unfold Wave.square
    split <;> norm_num
  case Pulse =>
    show -1 ≤ ((Wave.pulse _ : ℚ) : ℝ) ∧ ((Wave.pulse _ : ℚ) : ℝ) ≤ 1
    unfold Wave.pulse
    split <;> norm_num
  case Triangle =>
    show -1 ≤ ((Wave.triangle _ : ℚ) : ℝ) ∧ ((Wave.triangle _ : ℚ) : ℝ) ≤ 1
    unfold Wave.triangle
    have h3 : |phase - ((⌊phase + 1/2⌋ : ℚ))| ≤ 1/2 := by
      rw [abs_le]
      constructor <;> linarith
    have h4 : (0 : ℚ) ≤ |phase - ((⌊phase + 1/2⌋ : ℚ))| := abs_nonneg _
    have hq : -1 ≤ 4 * |phase - ((⌊phase + 1/2⌋ : ℚ))| - 1 ∧
        4 * |phase - ((⌊phase + 1/2⌋ : ℚ))| - 1 ≤ 1 :=
      ⟨by linarith, by linarith⟩
    exact ⟨by exact_mod_cast hq.1, by exact_mod_cast hq.2⟩
  case Sawtooth =>
    show -1 ≤ ((Wave.sawtooth _ : ℚ) : ℝ) ∧ ((Wave.sawtooth _ : ℚ) : ℝ) ≤ 1
    unfold Wave.sawtooth
    have hq : -1 ≤ 2 * (phase - ((⌊phase + 1/2⌋ : ℚ))) ∧
        2 * (phase - ((⌊phase + 1/2⌋ : ℚ))) ≤ 1 := ⟨by linarith, by linarith⟩
    exact ⟨by exact_mod_cast hq.1, by exact_mod_cast hq.2⟩

theorem wave_out_bounded (s : Wave) (x : ℝ) (h : Wave.out s = some x) :
    -1 ≤ x ∧ x ≤ 1 := by
  unfold Wave.out at h
  by_cases hd : s.isDone = true
  · rw [if_pos hd] at h
    cases h
  · simp only [Bool.not_eq_true] at hd
    rw [hd] at h
    simp only [Bool.false_eq_true, if_false, Option.some_inj] at h
    rw [← h]
    exact wave_sample_bounds s

/-- C8: every sample emitted by the `Wave` generator — any wave shape, any
frequency ≥ 0, any sample rate, finite or infinite budget, at any step —
lies within [-1.0, 1.0] inclusive. -/
theorem wave_samples_in_unit_interval (wt : WaveType) (freq : ℚ)
    (rate : ℕ) (d : ℚ) (n : ℕ) (x : ℝ) (hfreq : 0 ≤ freq) :
    (Wave.out ((Wave.step)^[n] (Wave.finite wt freq rate d)) = some x →
        -1 ≤ x ∧ x ≤ 1) ∧
    (Wave.out ((Wave.step)^[n] (Wave.infinite wt freq rate)) = some x →
        -1 ≤ x ∧ x ≤ 1) :=
  ⟨fun h => wave_out_bounded _ x h, fun h => wave_out_bounded _ x h⟩

theorem wave_samples_in_unit_interval_witness :
    -1 ≤ (1 : ℝ) ∧ (1 : ℝ) ≤ 1 :=
  (wave_samples_in_unit_interval WaveType.Square 440 44100 1 0 1
    (by norm_num)).1 (by
      simp only [Function.iterate_zero_apply]
      norm_num [Wave.out, Wave.isDone, Wave.finite, Wave.sample,
        Wave.square, rem1])

/-! ## C3: zero-frequency generators -/

/-- C3 fails on the code: at frequency 0 the `Square` generator (used by
`Melody::play`) and the square-shaped `Wave` emit the constant 1.0, not
silence — only the older `SquareWave` special-cases frequency 0 to emit
0.0.  (Construction still does not divide by zero: `phase_step` comes out
0.) -/
theorem zero_frequency_square_emits_one :
    Square.out (Square.finite 0 44100 1) = some 1 ∧
    Wave.out (Wave.finite WaveType.Square 0 44100 1) = some 1 ∧
    SquareWave.out (SquareWave.new 0 44100 1) = some 0 ∧
    (Square.finite 0 44100 1).phase_step = 0 := by
  refine ⟨?_, ?_, ?_, ?_⟩
  · norm_num [Square.out, Square.finite, Square.isDone, rem1]
  · norm_num [Wave.out, Wave.isDone, Wave.finite, Wave.sample, Wave.square,
      rem1]
  · norm_num [SquareWave.out, SquareWave.new]
  · norm_num [Square.finite]

/-! ## Notation parser -/

/-- `NoteElement` (src/music/melody.rs:185-194). -/
inductive NoteElement where
  | Note (position : ℕ) (octaveOffset : ℤ)
  | Rest
  | Sustain
deriving DecidableEq

/-- Structured stand-ins for the error message strings produced by
`parse_note_notation` (the source returns `Result<_, String>`; only the
error kind and, for invalid characters, the offending character vary). -/
inductive ParseErr where
  | position_zero
  | invalid_char (c : Char)
  | no_notes
deriving DecidableEq

/-- The per-character scan of one token: the inner `while` loop of
`parse_note_notation` (src/music/util.rs:72-105), with `off` playing the
role of `current_octave_offset`. -/
def parseToken : List Char → ℤ → Except ParseErr (List NoteElement)
  | [], _ => .ok []
  | c :: rest, off =>
    if '1' ≤ c ∧ c ≤ '9' then
      (parseToken rest off).map
        (fun es => NoteElement.Note (c.toNat - Char.toNat '0') off :: es)
    else if c = '0' then .error .position_zero
    else if c = '.' then
      (parseToken rest off).map (fun es => NoteElement.Rest :: es)
    else if c = '-' then
      (parseToken rest off).map (fun es => NoteElement.Sustain :: es)
    else if c = '^' then parseToken rest (off + 1)
    else if c = 'v' then parseToken rest (off - 1)
    else if c = ' ' ∨ c = '\t' then parseToken rest off
    else .error (.invalid_char c)

/-- The token loop of `parse_note_notation`: elements accumulate across
tokens, but `current_octave_offset` is declared *inside* the `for` loop,
so it restarts at 0 for every token. -/
def parseTokens : List (List Char) → Except ParseErr (List NoteElement)
  | [] => .ok []
  | t :: ts =>
    match parseToken t 0 with
    | .error e => .error e
    | .ok es =>
      match parseTokens ts with
      | .error e => .error e
      | .ok es2 => .ok (es ++ es2)

/-- `parse_note_notation` (src/music/util.rs:65-113), with tokens as
character lists. -/
def parse_note_elements (note_strings : List (List Char)) :
    Except ParseErr (List NoteElement) :=
  match parseTokens note_strings with
  | .error e => .error e
  | .ok es => if es.isEmpty = true then .error .no_notes else .ok es

instance exceptDecEq {ε α : Type} [DecidableEq ε] [DecidableEq α] :
    DecidableEq (Except ε α)
  | .ok a, .ok b =>
    if h : a = b then .isTrue (by rw [h])
    else .isFalse (fun hc => h (Except.ok.inj hc))
  | .error a, .error b =>
    if h : a = b then .isTrue (by rw [h])
    else .isFalse (fun hc => h (Except.error.inj hc))
  | .ok a, .error b => .isFalse (fun hc => Except.noConfusion hc)
  | .error a, .ok b => .isFalse (fun hc => Except.noConfusion hc)

/-- `Result::is_ok` for the result type of the parser. -/
def exOk : Except ParseErr (List NoteElement) → Bool
  | .ok _ => true
  | .error _ => false

/-- The characters the scanner consumes without error: digits 1–9, `.`,
`-`, `^`, `v`, and exactly space and tab. -/
def allowedChar (c : Char) : Bool :=
  (decide ('1' ≤ c) && decide (c ≤ '9')) || c == '.' || c == '-' ||
    c == '^' || c == 'v' || c == ' ' || c == '\t'

/-- The characters that emit a `NoteElement`. -/
def emitsChar (c : Char) : Bool :=
  (decide ('1' ≤ c) && decide (c ≤ '9')) || c == '.' || c == '-'

/-- The character set the claim allows: digits 1–9, the markers, and any
whitespace. -/
def claimAllowedChar (c : Char) : Bool :=
  (decide ('1' ≤ c) && decide (c ≤ '9')) || c == '.' || c == '-' ||
    c == '^' || c == 'v' || c.isWhitespace

/-! ## C6: the octave register across tokens -/

/-- C6 (amended): the octave register persists across the characters of a
single token, but it is re-initialised to 0 at the start of every token,
so parsing is token-wise independent: the elements of `xs ++ ys` are the
elements of `xs` followed by the elements of `ys`, each token starting at
register 0.  In particular `["1^", "2"]` parses to
`[Note(1,0), Note(2,0)]`. -/
theorem octave_register_resets_per_token :
    (∀ xs ys : List (List Char),
      parseTokens (xs ++ ys)
        = match parseTokens xs with
          | .error e => .error e
          | .ok a =>
            match parseTokens ys with
            | .error e => .error e
            | .ok b => .ok (a ++ b)) ∧
    parse_note_elements [['1', '^'], ['2']]
      = .ok [NoteElement.Note 1 0, NoteElement.Note 2 0] := by
  constructor
  · intro xs ys
    induction xs with
    | nil =>
      simp only [List.nil_append, parseTokens]
      cases parseTokens ys <;> simp
    | cons t ts ih =>
      simp only [List.cons_append, parseTokens, List.append_eq]
      cases parseToken t 0 with
      | error e => rfl
      | ok es =>
        dsimp only
        rw [ih]
        cases parseTokens ts with
        | error e => rfl
        | ok es2 =>
          cases parseTokens ys with
          | error e => rfl
          | ok es3 => simp
  · decide

/-- C6 counterexample: parsing the tokens `"1^"` then `"2"` yields
`[Note(1,0), Note(2,0)]` — the register set by `^` at the end of the
first token does **not** carry into the second token, contradicting the
claimed `[Note(1,0), Note(2,1)]`. -/
theorem octave_register_not_persistent_counterexample :
    parse_note_elements [['1', '^'], ['2']]
        ≠ .ok [NoteElement.Note 1 0, NoteElement.Note 2 1] ∧
    parse_note_elements [['1', '^'], ['2']]
        = .ok [NoteElement.Note 1 0, NoteElement.Note 2 0] := by
  constructor <;> decide

/-! ## C9: parse success and error characterisation -/

theorem exOk_map (e : Except ParseErr (List NoteElement))
    (f : List NoteElement → List NoteElement) : exOk (e.map f) = exOk e := by
  cases e <;> rfl

theorem parseToken_isOk (t : List Char) (off : ℤ) :
    exOk (parseToken t off) = t.all allowedChar := by
  induction t generalizing off with
  | nil => rfl
  | cons c rest ih =>
    unfold parseToken
    by_cases h1 : '1' ≤ c ∧ c ≤ '9'
    · have ha : allowedChar c = true := by
        unfold allowedChar
        rw [decide_eq_true h1.1, decide_eq_true h1.2]
        simp
      simp [h1, exOk_map, ih, ha]
    · rw [if_neg h1]
      by_cases h2 : c = '0'
      · subst h2
        have ha : allowedChar '0' = false := by decide
        simp [exOk, ha]
      · rw [if_neg h2]
        by_cases h3 : c = '.'
        · subst h3
          have ha : allowedChar '.' = true := by decide
          simp [exOk_map, ih, ha]
        · rw [if_neg h3]
          by_cases h4 : c = '-'
          · subst h4
            have ha : allowedChar '-' = true := by decide
            simp [exOk_map, ih, ha]
          · rw [if_neg h4]
            by_cases h5 : c = '^'
            · subst h5
              have ha : allowedChar '^' = true := by decide
              simp [ih, ha]
            · rw [if_neg h5]
              by_cases h6 : c = 'v'
              · subst h6
                have ha : allowedChar 'v' = true := by decide
                simp [ih, ha]
              · rw [if_neg h6]
                by_cases h7 : c = ' ' ∨ c = '\t'
                · rcases h7 with h7 | h7
                  · subst h7
                    have ha : allowedChar ' ' = true := by decide
                    simp [ih, ha]
                  · subst h7
                    have ha : allowedChar '\t' = true := by decide
                    simp [ih, ha]
                · rw [if_neg h7]
                  have ha : allowedChar c = false := by
                    apply Bool.eq_false_iff.mpr
                    intro hcontra
                    simp only [allowedChar, Bool.or_eq_true,
                      Bool.and_eq_true, decide_eq_true_eq,
                      beq_iff_eq] at hcontra
                    tauto
                  simp [exOk, ha]

theorem parseToken_ok_isEmpty (t : List Char) (off : ℤ)
    (es : List NoteElement) (h : parseToken t off = .ok es) :
    es.isEmpty = !(t.any emitsChar) := by
  induction t generalizing off es with
  | nil =>
    simp only [parseToken] at h
    cases h
    rfl
  | cons c rest ih =>
    unfold parseToken at h
    by_cases h1 : '1' ≤ c ∧ c ≤ '9'
    · rw [if_pos h1] at h
      cases hrec : parseToken rest off with
      | error e => rw [hrec] at h; cases h
      | ok es1 =>
        rw [hrec] at h
        simp only [Except.map, Except.ok.injEq] at h
        subst h
        have he : emitsChar c = true := by
          simp [emitsChar, h1.1, h1.2]
        simp [he]
    · rw [if_neg h1] at h
      by_cases h2 : c = '0'
      · rw [if_pos h2] at h; cases h
      · rw [if_neg h2] at h
        by_cases h3 : c = '.'
        · rw [if_pos h3] at h
          cases hrec : parseToken rest off with
          | error e => rw [hrec] at h; cases h
          | ok es1 =>
            rw [hrec] at h
            simp only [Except.map, Except.ok.injEq] at h
            subst h
            subst h3
            simp [emitsChar]
        · rw [if_neg h3] at h
          by_cases h4 : c = '-'
          · rw [if_pos h4] at h
            cases hrec : parseToken rest off with
            | error e => rw [hrec] at h; cases h
            | ok es1 =>
              rw [hrec] at h
              simp only [Except.map, Except.ok.injEq] at h
              subst h
              subst h4
              simp [emitsChar]
          · rw [if_neg h4] at h
            by_cases h5 : c = '^'
            · rw [if_pos h5] at h
              subst h5
              rw [ih _ _ h]
              simp [emitsChar]
            · rw [if_neg h5] at h
              by_cases h6 : c = 'v'
              · rw [if_pos h6] at h
                subst h6
                rw [ih _ _ h]
                simp [emitsChar]
              · rw [if_neg h6] at h
                by_cases h7 : c = ' ' ∨ c = '\t'
                · rw [if_pos h7] at h
                  rw [ih _ _ h]
                  have he : emitsChar c = false := by
                    rcases h7 with h7 | h7 <;> subst h7 <;> rfl
                  simp [he]
                · rw [if_neg h7] at h
                  cases h

theorem parseTokens_isOk (ts : List (List Char)) :
    exOk (parseTokens ts) = ts.all (fun t => t.all allowedChar) := by
  induction ts with
  | nil => rfl
  | cons t ts ih =>
    simp only [parseTokens, List.all_cons]
    cases hp : parseToken t 0 with
    | error e =>
      have hT := parseToken_isOk t 0
      rw [hp] at hT
      simp only [exOk] at hT ⊢
      rw [← hT]
      simp
    | ok es =>
      have hT := parseToken_isOk t 0
      rw [hp] at hT
      simp only [exOk] at hT
      dsimp only
      rw [← hT, Bool.true_and]
      cases hq : parseTokens ts with
      | error e =>
        rw [hq] at ih
        simp only [exOk] at ih ⊢
        exact ih
      | ok es2 =>
        rw [hq] at ih
        simp only [exOk] at ih ⊢
        exact ih

theorem isEmpty_append (l l' : List NoteElement) :
    (l ++ l').isEmpty = (l.isEmpty && l'.isEmpty) := by
  cases l <;> cases l' <;> rfl

theorem parseTokens_ok_isEmpty (ts : List (List Char))
    (es : List NoteElement) (h : parseTokens ts = .ok es) :
    es.isEmpty = !(ts.any (fun t => t.any emitsChar)) := by
  induction ts generalizing es with
  | nil =>
    simp only [parseTokens] at h
    cases h
    rfl
  | cons t ts ih =>
    simp only [parseTokens] at h
    cases hp : parseToken t 0 with
    | error e => rw [hp] at h; cases h
    | ok es1 =>
      rw [hp] at h
      cases hq : parseTokens ts with
      | error e => rw [hq] at h; cases h
      | ok es2 =>
        rw [hq] at h
        simp only [Except.ok.injEq] at h
        subst h
        rw [isEmpty_append, parseToken_ok_isEmpty t 0 es1 hp, ih _ hq]
        simp

/-- C9 (amended): `parse_note_notation` succeeds exactly when every
character of every token is one of `1`–`9`, `.`, `-`, `^`, `v`, space or
tab (so `0`, and **any other whitespace such as newline**, make it fail)
and at least one character emits an element; on failure no element list is
returned, `"10"` gives the position-zero error, `"1#2"` the
invalid-character error naming `#`, and an empty input the no-notes
error. -/
theorem parse_errors_characterisation (ts : List (List Char)) :
    (exOk (parse_note_elements ts)
      = (ts.all (fun t => t.all allowedChar)
          && ts.any (fun t => t.any emitsChar))) ∧
    parse_note_elements [['1', '0']] = .error .position_zero ∧
    parse_note_elements [['1', '#', '2']] = .error (.invalid_char '#') ∧
    parse_note_elements [] = .error .no_notes := by
  refine ⟨?_, by decide, by decide, by decide⟩
  unfold parse_note_elements
  cases h : parseTokens ts with
  | error e =>
    have hok := parseTokens_isOk ts
    rw [h] at hok
    simp only [exOk] at hok ⊢
    rw [← hok]
    simp
  | ok es =>
    have hok := parseTokens_isOk ts
    rw [h] at hok
    simp only [exOk] at hok
    have hemp := parseTokens_ok_isEmpty ts es h
    dsimp only
    by_cases he : es.isEmpty = true
    · rw [if_pos he]
      simp only [exOk]
      rw [← hok, Bool.true_and]
      rw [he] at hemp
      cases hb : ts.any (fun t => t.any emitsChar) with
      | false => rfl
      | true =>
        rw [hb] at hemp
        simp at hemp
    · rw [if_neg he]
      simp only [exOk]
      rw [← hok, Bool.true_and]
      have he' : es.isEmpty = false := by
        cases hbe : es.isEmpty
        · rfl
        · exact absurd hbe he
      rw [he'] at hemp
      cases hb : ts.any (fun t => t.any emitsChar) with
      | true => rfl
      | false =>
        rw [hb] at hemp
        simp at hemp

/-- C9 counterexample: the token `"1\n"` contains only characters the
claim allows (`1` and whitespace), contains no `0`, and emits an element,
yet the parser rejects it with an invalid-character error for the
newline — the code only treats space and tab as whitespace. -/
theorem parse_newline_rejected_counterexample :
    (['1', '\n'].all claimAllowedChar = true) ∧
    (['1', '\n'].any emitsChar = true) ∧
    parse_note_elements [['1', '\n']] = .error (.invalid_char '\n') := by
  refine ⟨by decide, by decide, by decide⟩

/-! ## Melody scheduler -/

/-- `MelodyConfig` (src/music/melody.rs:197-207). -/
structure MelodyConfig where
  scale_name : String
  scale_intervals : List ℤ
  note_elements : List NoteElement
  key : Key
  bpm : ℕ
  should_loop : Bool
  base_duration : String
  sample_rate : ℕ

/-- `Melody` (src/music/melody.rs:8-20); durations in milliseconds. -/
structure Melody where
  notes : List MusicNote
  key : Key
  sample_rate : ℕ
  bpm : ℕ
  base_note_duration : ℕ
  sixteenth_note_duration : ℕ
  scale_name : String
  scale_intervals : List ℤ
  note_elements : List NoteElement
  should_loop : Bool
  base_duration : String

/-- `Melody::calculate_durations` (src/music/melody.rs:158-176): integer
millisecond arithmetic, `60000 / bpm` per quarter note. -/
def Melody.calculate_durations (bpm : ℕ) (base_duration : String) :
    ℕ × ℕ :=
  let quarter_note_ms := 60000 / bpm
  let sixteenth_note_ms := quarter_note_ms / 4
  let s := base_duration.toLower
  let base_duration_ms :=
    if s = "whole" ∨ s = "1" then quarter_note_ms * 4
    else if s = "half" ∨ s = "2" then quarter_note_ms * 2
    else if s = "quarter" ∨ s = "4" then quarter_note_ms
    else if s = "eighth" ∨ s = "8" then quarter_note_ms / 2
    else if s = "sixteenth" ∨ s = "16" then quarter_note_ms / 4
    else quarter_note_ms / 4
  (base_duration_ms, sixteenth_note_ms)

/-- The sustain look-ahead loop in `Melody::new`
(src/music/melody.rs:62-73): count consecutive `Sustain`s. -/
def countSustains : List NoteElement → ℕ
  | NoteElement.Sustain :: rest => countSustains rest + 1
  | _ => 0

/-- The `i = j` jump after the look-ahead: skip the consumed sustains. -/
def dropSustains : List NoteElement → List NoteElement
  | NoteElement.Sustain :: rest => dropSustains rest
  | l => l

theorem dropSustains_length_le (l : List NoteElement) :
    (dropSustains l).length ≤ l.length := by
  induction l with
  | nil => exact le_refl _
  | cons e rest ih =>
    cases e with
    | Note p off => exact le_refl _
    | Rest => exact le_refl _
    | Sustain =>
      calc (dropSustains (NoteElement.Sustain :: rest)).length
          = (dropSustains rest).length := rfl
        _ ≤ rest.length := ih
        _ ≤ (NoteElement.Sustain :: rest).length := by
              simp only [List.length_cons]
              omega

/-- The `while` loop of `Melody::new` (src/music/melody.rs:45-97):
out-of-range positions (0 or beyond the scale) warn and are skipped; an
in-range note consumes the run of sustains that follows it, extending its
duration by one sixteenth each; a sustain reached directly degrades to a
rest of one base unit; a rest schedules one base unit of silence. -/
def buildNotes (key : Key) (scale : List ℤ) (baseMs sixMs : ℕ) :
    List NoteElement → List MusicNote
  | [] => []
  | NoteElement.Note position octave_offset :: rest =>
    if h : position = 0 ∨ scale.length < position then
      buildNotes key scale baseMs sixMs rest
    else
      let base_interval := scale.get ⟨position - 1, by omega⟩
      let interval := base_interval + octave_offset * 12
      let sustain_count := countSustains rest
      MusicNote.from_key_interval key interval
          (baseMs + sixMs * sustain_count)
        :: buildNotes key scale baseMs sixMs (dropSustains rest)
  | NoteElement.Rest :: rest =>
    MusicNote.mk Note.Rest 0 baseMs
      :: buildNotes key scale baseMs sixMs rest
  | NoteElement.Sustain :: rest =>
    MusicNote.mk Note.Rest 0 baseMs
      :: buildNotes key scale baseMs sixMs rest
termination_by l => l.length
decreasing_by
  all_goals simp only [List.length_cons]
  · omega
  · have := dropSustains_length_le rest
    omega
  · omega
  · omega

/-- `Melody::new` (src/music/melody.rs:23-99). -/
def Melody.new (config : MelodyConfig) : Melody :=
  let d := Melody.calculate_durations config.bpm config.base_duration
  { notes := buildNotes config.key config.scale_intervals d.1 d.2
      config.note_elements,
    key := config.key, sample_rate := config.sample_rate,
    bpm := config.bpm, base_note_duration := d.1,
    sixteenth_note_duration := d.2, scale_name := config.scale_name,
    scale_intervals := config.scale_intervals,
    note_elements := config.note_elements,
    should_loop := config.should_loop,
    base_duration := config.base_duration }

/-- `Melody::play` (src/music/melody.rs:151-156): hand the sink one
`Square::from_note` generator per scheduled note, in order. -/
def Melody.play (m : Melody) : List Square :=
  m.notes.foldl
    (fun acc note => acc ++ [Square.from_note note m.sample_rate]) []

/-! ## C7: sustain expansion -/

theorem countSustains_replicate (k : ℕ) (suffix : List NoteElement)
    (hs : suffix.head? ≠ some NoteElement.Sustain) :
    countSustains (List.replicate k NoteElement.Sustain ++ suffix) = k := by
  induction k with
  | zero =>
    simp only [List.replicate, List.nil_append]
    cases suffix with
    | nil => rfl
    | cons e rest =>
      cases e with
      | Note p off => rfl
      | Rest => rfl
      | Sustain => exact absurd rfl hs
  | succ k ih =>
    simp only [List.replicate, List.cons_append]
    have hstep :
        countSustains (NoteElement.Sustain
            :: (List.replicate k NoteElement.Sustain ++ suffix))
          = countSustains
              (List.replicate k NoteElement.Sustain ++ suffix) + 1 := rfl
    rw [hstep, ih]

theorem dropSustains_replicate (k : ℕ) (suffix : List NoteElement)
    (hs : suffix.head? ≠ some NoteElement.Sustain) :
    dropSustains (List.replicate k NoteElement.Sustain ++ suffix)
      = suffix := by
  induction k with
  | zero =>
    simp only [List.replicate, List.nil_append]
    cases suffix with
    | nil => rfl
    | cons e rest =>
      cases e with
      | Note p off => rfl
      | Rest => rfl
      | Sustain => exact absurd rfl hs
  | succ k ih =>
    simp only [List.replicate, List.cons_append]
    have hstep :
        dropSustains (NoteElement.Sustain
            :: (List.replicate k NoteElement.Sustain ++ suffix))
          = dropSustains
              (List.replicate k NoteElement.Sustain ++ suffix) := rfl
    rw [hstep, ih]

/-- C7: during melody construction, an in-range `Note` element immediately
followed by `k` consecutive `Sustain`s is scheduled as exactly one note of
duration `base_unit + k · sixteenth_unit` (the sustains are consumed and
produce no further entries), and a `Sustain` not following such a note —
leading, or right after a `Rest` — is scheduled as one rest of one base
unit. -/
theorem melody_sustain_scheduling (key : Key) (scale : List ℤ)
    (baseMs sixMs : ℕ) (p : ℕ) (off : ℤ) (k : ℕ)
    (suffix : List NoteElement) (hp : 1 ≤ p) (hlen : p ≤ scale.length)
    (hs : suffix.head? ≠ some NoteElement.Sustain) :
    buildNotes key scale baseMs sixMs
        (NoteElement.Note p off
          :: (List.replicate k NoteElement.Sustain ++ suffix))
      = MusicNote.from_key_interval key
          (scale.get ⟨p - 1, by omega⟩ + off * 12) (baseMs + sixMs * k)
        :: buildNotes key scale baseMs sixMs suffix ∧
    buildNotes key scale baseMs sixMs (NoteElement.Sustain :: suffix)
      = MusicNote.mk Note.Rest 0 baseMs
        :: buildNotes key scale baseMs sixMs suffix ∧
    buildNotes key scale baseMs sixMs
        (NoteElement.Rest :: NoteElement.Sustain :: suffix)
      = MusicNote.mk Note.Rest 0 baseMs :: MusicNote.mk Note.Rest 0 baseMs
        :: buildNotes key scale baseMs sixMs suffix := by
  have hcond : ¬(p = 0 ∨ scale.length < p) := by omega
  refine ⟨?_, by simp only [buildNotes], by simp only [buildNotes]⟩
  simp only [buildNotes]
  rw [dif_neg hcond]
  rw [countSustains_replicate k suffix hs, dropSustains_replicate k suffix hs]

theorem melody_sustain_scheduling_witness :
    buildNotes (Key.mk Note.C 4) [0, 2, 4] 500 125
        (NoteElement.Note 1 0
          :: (List.replicate 1 NoteElement.Sustain ++ []))
      = MusicNote.from_key_interval (Key.mk Note.C 4)
          (([0, 2, 4] : List ℤ).get ⟨1 - 1, by norm_num⟩ + 0 * 12)
          (500 + 125 * 1)
        :: buildNotes (Key.mk Note.C 4) [0, 2, 4] 500 125 [] ∧
    buildNotes (Key.mk Note.C 4) [0, 2, 4] 500 125
        (NoteElement.Sustain :: [])
      = MusicNote.mk Note.Rest 0 500
        :: buildNotes (Key.mk Note.C 4) [0, 2, 4] 500 125 [] ∧
    buildNotes (Key.mk Note.C 4) [0, 2, 4] 500 125
        (NoteElement.Rest :: NoteElement.Sustain :: [])
      = MusicNote.mk Note.Rest 0 500 :: MusicNote.mk Note.Rest 0 500
        :: buildNotes (Key.mk Note.C 4) [0, 2, 4] 500 125 [] :=
  melody_sustain_scheduling (Key.mk Note.C 4) [0, 2, 4] 500 125 1 0 1 []
    (by norm_num) (by norm_num) (by decide)

/-! ## C10: playback is always square -/

theorem square_step_of_done (s : Square) (h : s.isDone = true) :
    Square.step s = s := by
  simp [Square.step, h]

theorem square_step_fields_not_done (s : Square) (h : s.isDone = false) :
    (Square.step s).phase = Int.fract (s.phase + s.phase_step) ∧
    (Square.step s).samples_played = s.samples_played + 1 ∧
    (Square.step s).phase_step = s.phase_step ∧
    (Square.step s).limit = s.limit := by
  simp [Square.step, h]

theorem wave_step_fields_not_done (s : Wave) (h : s.isDone = false) :
    (Wave.step s).phase = Int.fract (s.phase + s.phase_step) ∧
    (Wave.step s).samples_played = s.samples_played + 1 ∧
    (Wave.step s).phase_step = s.phase_step ∧
    (Wave.step s).limit = s.limit ∧
    (Wave.step s).wave_type = s.wave_type := by
  simp [Wave.step, h]

theorem square_wave_state_corr (f : ℚ) (rate : ℕ) (d : ℚ) (n : ℕ) :
    ((Square.step)^[n] (Square.finite f rate d)).phase
        = ((Wave.step)^[n] (Wave.finite WaveType.Square f rate d)).phase ∧
    ((Square.step)^[n] (Square.finite f rate d)).samples_played
        = ((Wave.step)^[n]
            (Wave.finite WaveType.Square f rate d)).samples_played ∧
    ((Square.step)^[n] (Square.finite f rate d)).phase_step
        = ((Wave.step)^[n]
            (Wave.finite WaveType.Square f rate d)).phase_step ∧
    ((Square.step)^[n] (Square.finite f rate d)).limit
        = ((Wave.step)^[n] (Wave.finite WaveType.Square f rate d)).limit ∧
    ((Wave.step)^[n] (Wave.finite WaveType.Square f rate d)).wave_type
        = WaveType.Square := by
  induction n with
  | zero => exact ⟨rfl, rfl, rfl, rfl, rfl⟩
  | succ n ih =>
    obtain ⟨h1, h2, h3, h4, h5⟩ := ih
    rw [Function.iterate_succ_apply', Function.iterate_succ_apply']
    have hdone : ((Square.step)^[n] (Square.finite f rate d)).isDone
        = ((Wave.step)^[n] (Wave.finite WaveType.Square f rate d)).isDone := by
      unfold Square.isDone Wave.isDone
      rw [h2, h4]
    by_cases hd : ((Wave.step)^[n]
        (Wave.finite WaveType.Square f rate d)).isDone = true
    · rw [square_step_of_done _ (by rw [hdone]; exact hd),
        wave_step_of_done _ hd]
      exact ⟨h1, h2, h3, h4, h5⟩
    · have hdF : ((Wave.step)^[n]
          (Wave.finite WaveType.Square f rate d)).isDone = false := by
        cases hb : ((Wave.step)^[n]
            (Wave.finite WaveType.Square f rate d)).isDone
        · rfl
        · exact absurd hb hd
      have hdF' : ((Square.step)^[n] (Square.finite f rate d)).isDone
          = false := by rw [hdone]; exact hdF
      obtain ⟨w1, w2, w3, w4, w5⟩ := wave_step_fields_not_done _ hdF
      obtain ⟨q1, q2, q3, q4⟩ := square_step_fields_not_done _ hdF'
      refine ⟨?_, ?_, ?_, ?_, ?_⟩
      · rw [q1, w1, h1, h3]
      · rw [q2, w2, h2]
      · rw [q3, w3, h3]
      · rw [q4, w4, h4]
      · rw [w5, h5]

theorem square_wave_out_eq (f : ℚ) (rate : ℕ) (d : ℚ) (n : ℕ) :
    (Square.out ((Square.step)^[n] (Square.finite f rate d))).map
        (fun q => (q : ℝ))
      = Wave.out ((Wave.step)^[n] (Wave.finite WaveType.Square f rate d)) := by
  obtain ⟨h1, h2, h3, h4, h5⟩ := square_wave_state_corr f rate d n
  have hdone : ((Square.step)^[n] (Square.finite f rate d)).isDone
      = ((Wave.step)^[n] (Wave.finite WaveType.Square f rate d)).isDone := by
    unfold Square.isDone Wave.isDone
    rw [h2, h4]
  unfold Square.out Wave.out
  by_cases hd : ((Wave.step)^[n]
      (Wave.finite WaveType.Square f rate d)).isDone = true
  · rw [if_pos hd, if_pos (by rw [hdone]; exact hd)]
    rfl
  · have hdF : ((Wave.step)^[n]
        (Wave.finite WaveType.Square f rate d)).isDone = false := by
      cases hb : ((Wave.step)^[n]
          (Wave.finite WaveType.Square f rate d)).isDone
      · rfl
      · exact absurd hb hd
    rw [if_neg hd, if_neg (by rw [hdone]; exact hdF ▸ hd)]
    have hsample : Wave.sample
        ((Wave.step)^[n] (Wave.finite WaveType.Square f rate d))
        = ((Wave.square ((Wave.step)^[n]
            (Wave.finite WaveType.Square f rate d)) : ℚ) : ℝ) := by
      unfold Wave.sample
      rw [h5]
    rw [hsample]
    unfold Wave.square
    rw [h1]
    rfl

/-- C10: `Melody::play` hands the sink exactly one finite square-wave
generator per scheduled note, in sequence order, budgeted by the
frequency and duration of that note; and every sample such a generator emits coincides
with the square-shaped `Wave` output — the wave-shape selector never
enters this playback path, the shape is always square. -/
theorem melody_play_spec (m : Melody) :
    Melody.play m
        = m.notes.map (fun note => Square.from_note note m.sample_rate) ∧
    (∀ note : MusicNote, ∀ n : ℕ,
      (Square.out ((Square.step)^[n]
          (Square.from_note note m.sample_rate))).map (fun q => (q : ℝ))
        = Wave.out ((Wave.step)^[n]
            (Wave.from_note WaveType.Square note m.sample_rate))) := by
  constructor
  · unfold Melody.play
    have haux : ∀ (l : List MusicNote) (acc : List Square),
        l.foldl (fun acc note =>
            acc ++ [Square.from_note note m.sample_rate]) acc
          = acc ++ l.map (fun note => Square.from_note note m.sample_rate) := by
      intro l
      induction l with
      | nil => intro acc; simp
      | cons x xs ih =>
        intro acc
        simp only [List.foldl_cons, List.map_cons, ih]
        simp
    simpa using haux m.notes []
  · intro note n
    unfold Square.from_note Wave.from_note
    exact square_wave_out_eq note.frequency m.sample_rate _ n

end Sound
